import Mathlib

/-!
Verification of the LocationPingServ service (src/index.js): a shallow
embedding of its session store, blacklist, authentication middleware and
ping registry, followed by theorems about the behaviour of each operation.

Conventions of the embedding:
* JavaScript `Date.now()` timestamps are `Nat` milliseconds, supplied
  explicitly to each operation that reads the clock.
* Fresh `uuidv4()` values (tokens, ping ids) are supplied explicitly as
  `String` arguments; uniqueness is a hypothesis where a theorem needs it.
* The `users` `Map` is an association list in insertion order; `Map.set`
  overwrites in place (keeping the position) or appends, `Map.delete`
  removes the entry, and iteration follows list order, matching the
  JavaScript `Map` iteration contract.
* JSON request fields that the handlers copy without inspecting
  (`x`, `y`, `z`, `label`, `dimension`) are modelled by `JsValue`, an
  untyped JSON scalar, because the source performs no validation on them.
-/

/-- An untyped JSON scalar as it arrives in a request body. -/
inductive JsValue where
  | undef
  | jsNull
  | num (n : Int)
  | str (s : String)
  | jsBool (b : Bool)
deriving DecidableEq, Repr

/-- `true` iff the value is a JSON number. -/
def JsValue.isNum : JsValue → Bool
  | .num _ => true
  | _ => false

/-- A session record: `{ role, token, lastSeen }` stored in the `users` map. -/
structure Session where
  role : String
  token : String
  lastSeen : Nat
deriving DecidableEq, Repr

/-- A ping record: `{ id, x, y, z, label, dimension, type, author, expiresAt }`. -/
structure Ping where
  id : String
  x : JsValue
  y : JsValue
  z : JsValue
  label : JsValue
  dimension : JsValue
  type : String
  author : String
  expiresAt : Nat
deriving DecidableEq, Repr

/-- The mutable server state: the `users` map, the blacklist cache and the
ping list. -/
structure ServerState where
  users : List (String × Session)
  blacklistCache : List String
  pings : List Ping
deriving DecidableEq, Repr

/-- The empty state the process starts with. -/
def initialState : ServerState := ⟨[], [], []⟩

/-- The two configured role secrets (`PASSWORD_USER` / `PASSWORD_ADMIN`). -/
structure Config where
  passwordUser : String
  passwordAdmin : String
deriving DecidableEq, Repr

/-- `Map.set`: overwrite the entry for `k` in place, or append a new one. -/
def mapSet (m : List (String × Session)) (k : String) (v : Session) :
    List (String × Session) :=
  if m.any (fun e => e.1 = k) then
    m.map (fun e => if e.1 = k then (k, v) else e)
  else
    m ++ [(k, v)]

/-- `parseDuration`'s regex `^(\d+)([smhdw])$`: the digit run and the unit,
or `none` when the string does not match. -/
def durationMatch (s : String) : Option (Nat × Char) :=
  match s.data.reverse with
  | [] => none
  | u :: revDigits =>
    let ds := revDigits.reverse
    if ds ≠ [] ∧ ds.all (fun c => '0' ≤ c ∧ c ≤ '9') ∧
        (u = 's' ∨ u = 'm' ∨ u = 'h' ∨ u = 'd' ∨ u = 'w') then
      some (ds.foldl (fun acc c => acc * 10 + (c.toNat - 48)) 0, u)
    else none

/-- `parseDuration(durationStr)`: milliseconds from a compact duration
string; absent, empty (falsy) or non-matching input yields the 5-minute
default. -/
def parseDuration (durationStr : Option String) : Nat :=
  match durationStr with
  | none => 5 * 60 * 1000
  | some s =>
    if s = "" then 5 * 60 * 1000
    else
      match durationMatch s with
      | none => 5 * 60 * 1000
      | some (val, unit) =>
        if unit = 's' then val * 1000
        else if unit = 'm' then val * 60 * 1000
        else if unit = 'h' then val * 60 * 60 * 1000
        else if unit = 'd' then val * 24 * 60 * 60 * 1000
        else if unit = 'w' then val * 7 * 24 * 60 * 60 * 1000
        else 5 * 60 * 1000

/-- `getUserByToken(token)`: scan the `users` map in insertion order for a
session holding this token. -/
def getUserByToken (users : List (String × Session)) (token : String) :
    Option (String × Session) :=
  users.find? (fun e => e.2.token = token)

/-- Outcome of the `authenticate` middleware. -/
inductive AuthResult where
  | missingTokenErr
  | invalidTokenErr
  | blacklistedErr
  | okAuth (username : String) (sess : Session)
deriving DecidableEq, Repr

/-- The `authenticate` middleware: missing token → 401, unknown token →
401, blacklisted principal → 403 (the late ban check); on success the
session's `lastSeen` is set to `now` and the pre-update session is exposed
as `req.user`. -/
def authenticate (st : ServerState) (token : Option String) (now : Nat) :
    AuthResult × ServerState :=
  match token with
  | none => (.missingTokenErr, st)
  | some t =>
    if t = "" then (.missingTokenErr, st)
    else
      match getUserByToken st.users t with
      | none => (.invalidTokenErr, st)
      | some (username, sess) =>
        if st.blacklistCache.contains username then (.blacklistedErr, st)
        else
          (.okAuth username sess,
           { st with users := st.users.map (fun e =>
               if e.1 = username then (e.1, { e.2 with lastSeen := now }) else e) })

/-- Outcome of `POST /api/auth/login`. -/
inductive LoginResult where
  | missingCredentials
  | forbiddenLogin
  | invalidCredentials
  | loginSuccess (token : String) (role : String)
deriving DecidableEq, Repr

/-- The login handler: missing credentials → 400; blacklisted username →
403; the password is compared to `PASSWORD_ADMIN` first, then
`PASSWORD_USER`; otherwise 401. On success the session for `username` is
created or replaced with the fresh token. -/
def login (cfg : Config) (st : ServerState) (username password : String)
    (freshToken : String) (now : Nat) : LoginResult × ServerState :=
  if username = "" ∨ password = "" then (.missingCredentials, st)
  else if st.blacklistCache.contains username then (.forbiddenLogin, st)
  else if password = cfg.passwordAdmin then
    (.loginSuccess freshToken "ADMIN",
     { st with users := mapSet st.users username ⟨"ADMIN", freshToken, now⟩ })
  else if password = cfg.passwordUser then
    (.loginSuccess freshToken "USER",
     { st with users := mapSet st.users username ⟨"USER", freshToken, now⟩ })
  else (.invalidCredentials, st)

/-- `GET /api/pings` after authentication: `res.json(pings)`. -/
def listPings (st : ServerState) : List Ping := st.pings

/-- Outcome of `POST /api/pings` after authentication. -/
inductive PostResult where
  | coordForbidden
  | invalidTypeErr
  | created (p : Ping)
deriving DecidableEq, Repr

/-- The ping-post handler body (after authentication): COORD requires the
ADMIN role; LOCATION first filters out the author's existing LOCATION
ping; any other type is rejected; the accepted ping is appended. -/
def postPing (pings : List Ping) (authorName roleName : String)
    (x y z label dimension : JsValue) (duration : Option String) (ty : String)
    (freshId : String) (now : Nat) : PostResult × List Ping :=
  let durationMs := parseDuration duration
  let newPing : Ping :=
    { id := freshId, x := x, y := y, z := z, label := label,
      dimension := dimension, type := ty, author := authorName,
      expiresAt := now + durationMs }
  if ty = "COORD" then
    if roleName ≠ "ADMIN" then (.coordForbidden, pings)
    else (.created newPing, pings ++ [newPing])
  else if ty = "LOCATION" then
    (.created newPing,
     (pings.filter fun p =>
       !(decide (p.author = authorName) && decide (p.type = "LOCATION"))) ++ [newPing])
  else (.invalidTypeErr, pings)

/-- Outcome of `DELETE /api/pings/:id` after authentication. -/
inductive DeleteResult where
  | notFoundPing
  | deletedByAdmin
  | deletedByAuthor
  | deleteForbidden
deriving DecidableEq, Repr

/-- The ping-delete handler body (after authentication): `findIndex` by id,
404 if absent; an ADMIN removes any ping; otherwise only the author may
remove it, else 403 and the registry is unchanged. -/
def deletePing : List Ping → String → String → String → DeleteResult × List Ping
  | [], _, _, _ => (.notFoundPing, [])
  | p :: rest, id, username, roleName =>
    if p.id = id then
      if roleName = "ADMIN" then (.deletedByAdmin, rest)
      else if p.author = username then (.deletedByAuthor, rest)
      else (.deleteForbidden, p :: rest)
    else
      let r := deletePing rest id username roleName
      (r.1, p :: r.2)

/-- The blacklist-add mutation: if the username is not cached, append it to
the cache and revoke (delete) the username's live session; otherwise do
nothing. -/
def blacklistAdd (st : ServerState) (username : String) : ServerState :=
  if st.blacklistCache.contains username then st
  else
    { st with
      blacklistCache := st.blacklistCache ++ [username],
      users := st.users.filter (fun e => !decide (e.1 = username)) }

/-- Remove the first occurrence of `u`, as `indexOf` + `splice(index, 1)`. -/
def removeFirst : List String → String → List String
  | [], _ => []
  | x :: xs, u => if x = u then xs else x :: removeFirst xs u

/-- The blacklist-remove mutation: drop the first cached occurrence of the
username, if any. -/
def blacklistRemoveCore (st : ServerState) (username : String) : ServerState :=
  if st.blacklistCache.contains username then
    { st with blacklistCache := removeFirst st.blacklistCache username }
  else st

/-- Outcome of `POST /api/blacklist` and `DELETE /api/blacklist`. -/
inductive BlacklistResult where
  | adminRequired
  | usernameRequired
  | blSuccess (blacklist : List String)
deriving DecidableEq, Repr

/-- `POST /api/blacklist` after authentication: ADMIN only, username
required; always answers 200 success with the resulting cache. -/
def blacklistAddHandler (st : ServerState) (requesterRole username : String) :
    BlacklistResult × ServerState :=
  if requesterRole ≠ "ADMIN" then (.adminRequired, st)
  else if username = "" then (.usernameRequired, st)
  else
    let st' := blacklistAdd st username
    (.blSuccess st'.blacklistCache, st')

/-- `DELETE /api/blacklist` after authentication: ADMIN only, username
required; always answers 200 success with the resulting cache. -/
def blacklistRemoveHandler (st : ServerState) (requesterRole username : String) :
    BlacklistResult × ServerState :=
  if requesterRole ≠ "ADMIN" then (.adminRequired, st)
  else if username = "" then (.usernameRequired, st)
  else
    let st' := blacklistRemoveCore st username
    (.blSuccess st'.blacklistCache, st')

/-- The periodic expiry sweep: keep exactly the pings with
`expiresAt > now`. -/
def sweep (now : Nat) (pings : List Ping) : List Ping :=
  pings.filter (fun p => decide (now < p.expiresAt))

/-- Number of LOCATION-type pings authored by `a`. -/
def locCount (pings : List Ping) (a : String) : Nat :=
  pings.countP (fun p => decide (p.author = a) && decide (p.type = "LOCATION"))

/-- Number of COORD-type pings authored by `a`. -/
def coordCount (pings : List Ping) (a : String) : Nat :=
  pings.countP (fun p => decide (p.author = a) && decide (p.type = "COORD"))

/-! ### Helper lemmas -/

/-- Every entry of `mapSet m k v` is either the new `(k, v)` entry or an
entry of `m` whose key differs from `k`. -/
theorem mapSet_entry_cases (m : List (String × Session)) (k : String) (v : Session) :
    ∀ e ∈ mapSet m k v, e = (k, v) ∨ (e ∈ m ∧ e.1 ≠ k) := by
  intro e he
  unfold mapSet at he
  by_cases h : m.any (fun e => e.1 = k) = true
  · rw [if_pos h] at he
    obtain ⟨e0, he0, hfe⟩ := List.mem_map.mp he
    by_cases hk : e0.1 = k
    · left
      rw [if_pos hk] at hfe
      exact hfe.symm
    · right
      rw [if_neg hk] at hfe
      exact ⟨hfe ▸ he0, hfe ▸ hk⟩
  · rw [if_neg h] at he
    rcases List.mem_append.mp he with hm | hone
    · right
      simp only [List.any_eq_true, decide_eq_true_eq, not_exists, not_and] at h
      exact ⟨hm, fun hk => h e hm hk⟩
    · left
      simpa using hone

/-- After setting the key `k` twice, no session holds the first token `t1`
provided `t1` was fresh for the original map and differs from the second
token. -/
theorem getUserByToken_after_two_sets (m : List (String × Session)) (k : String)
    (s1 s2 : Session) (t1 : String)
    (hfresh : ∀ e ∈ m, e.2.token ≠ t1) (h2 : s2.token ≠ t1) :
    getUserByToken (mapSet (mapSet m k s1) k s2) t1 = none := by
  apply List.find?_eq_none.mpr
  intro e he
  simp only [decide_eq_true_eq]
  rcases mapSet_entry_cases _ k s2 e he with rfl | ⟨he1, hk1⟩
  · exact h2
  · rcases mapSet_entry_cases m k s1 e he1 with rfl | ⟨he0, _⟩
    · exact absurd rfl hk1
    · exact hfresh e he0

/-- The ping list after a delete is a sublist of the original. -/
theorem deletePing_sublist (pings : List Ping) (id u r : String) :
    (deletePing pings id u r).2.Sublist pings := by
  induction pings with
  | nil => simp [deletePing]
  | cons p rest ih =>
    by_cases hpid : p.id = id
    · by_cases hr : r = "ADMIN"
      · rw [deletePing, if_pos hpid, if_pos hr]
        exact List.sublist_cons_self p rest
      · by_cases ha : p.author = u
        · rw [deletePing, if_pos hpid, if_neg hr, if_pos ha]
          exact List.sublist_cons_self p rest
        · simp [deletePing, hpid, hr, ha]
    · simpa [deletePing, hpid] using ih.cons₂ p

/-- After `blacklistAdd st u` the cache contains `u`. -/
theorem blacklistAdd_contains_self (st : ServerState) (u : String) :
    (blacklistAdd st u).blacklistCache.contains u = true := by
  unfold blacklistAdd
  by_cases h : st.blacklistCache.contains u = true
  · rw [if_pos h]
    exact h
  · rw [if_neg h]
    simp

/-- `locCount` distributes over append. -/
theorem locCount_append (l m : List Ping) (b : String) :
    locCount (l ++ m) b = locCount l b + locCount m b :=
  List.countP_append _ l m

/-- The LOCATION filter applied before a LOCATION post removes every
LOCATION ping of the posting author. -/
theorem locCount_filter_self (pings : List Ping) (a : String) :
    locCount (pings.filter fun p =>
      !(decide (p.author = a) && decide (p.type = "LOCATION"))) a = 0 := by
  simp only [locCount, List.countP_filter, Bool.and_not_self]
  simp

/-! ### C8: the expiry sweep -/

/-- C8: one run of the sweep at `now` keeps exactly the pings with
`expiresAt > now` — a ping with `expiresAt = now` (or earlier) is removed —
and the kept pings stay in their original order (the result is a sublist). -/
theorem sweep_removes_expired (now : Nat) (pings : List Ping) :
    (∀ p ∈ pings, (p ∈ sweep now pings ↔ now < p.expiresAt)) ∧
    (sweep now pings).Sublist pings ∧
    (∀ p ∈ pings, p.expiresAt ≤ now → p ∉ sweep now pings) := by
  refine ⟨?_, List.filter_sublist pings, ?_⟩
  · intro p hp
    constructor
    · intro hmem
      simpa using (List.mem_filter.mp hmem).2
    · intro hlt
      exact List.mem_filter.mpr ⟨hp, by simpa using hlt⟩
  · intro p hp hle hmem
    have := (List.mem_filter.mp hmem).2
    simp only [decide_eq_true_eq] at this
    omega

/-- Two sample pings for the concrete evaluations below. -/
def pingA : Ping :=
  ⟨"idA", .num 0, .num 0, .num 0, .str "a", .str "ow", "LOCATION", "alice", 100⟩

def pingB : Ping :=
  ⟨"idB", .num 1, .num 2, .num 3, .str "b", .str "ow", "COORD", "bob", 50⟩

/-- A sweep at time 50 keeps `pingA` (expires 100) and drops `pingB`
(expires 50, the boundary case). -/
theorem sweep_removes_expired_w :
    pingA ∈ sweep 50 [pingA, pingB] ∧ pingB ∉ sweep 50 [pingA, pingB] := by
  have h := sweep_removes_expired 50 [pingA, pingB]
  exact ⟨(h.1 pingA (by decide)).mpr (by decide), h.2.2 pingB (by decide) (by decide)⟩

/-! ### C1: the listing operation -/

/-- A ping already expired at the observation time 100. -/
def expiredPing : Ping :=
  ⟨"p1", .num 1, .num 2, .num 3, .str "home", .str "ow", "LOCATION", "alice", 50⟩

/-- A registry state still holding `expiredPing` (no sweep has run). -/
def c1State : ServerState := ⟨[], [], [expiredPing]⟩

/-- C1 counterexample: at time 100 the listing still returns `expiredPing`
although its `expiresAt` (50) has passed, so the listing is not the set of
currently non-expired pings — the handler returns the array unfiltered. -/
theorem listPings_returns_expired :
    expiredPing.expiresAt ≤ 100 ∧
    listPings c1State = [expiredPing] ∧
    listPings c1State ≠ c1State.pings.filter (fun p => decide (100 < p.expiresAt)) :=
  ⟨by decide, rfl, by decide⟩

/-- C1 amended: the listing returns the registry contents verbatim (hence
in insertion order), with no expiry filtering of its own; the listing is
exactly the non-expired pings only immediately after a sweep at `now`. -/
theorem listPings_amended (st : ServerState) (now : Nat) :
    listPings st = st.pings ∧
    listPings { st with pings := sweep now st.pings } =
      st.pings.filter (fun p => decide (now < p.expiresAt)) :=
  ⟨rfl, rfl⟩

/-! ### C7: post-type authorization -/

/-- C7: a COORD post by a non-ADMIN fails with Forbidden and leaves the
registry unchanged; an unknown type fails with InvalidType and leaves the
registry unchanged; a COORD post by an ADMIN and a LOCATION post by any
role succeed and append the new ping. -/
theorem postPing_type_gating (pings : List Ping) (a roleName : String)
    (x y z l d : JsValue) (dur : Option String) (ty fid : String) (now : Nat) :
    (ty = "COORD" → roleName ≠ "ADMIN" →
      postPing pings a roleName x y z l d dur ty fid now = (.coordForbidden, pings)) ∧
    (ty ≠ "COORD" → ty ≠ "LOCATION" →
      postPing pings a roleName x y z l d dur ty fid now = (.invalidTypeErr, pings)) ∧
    (ty = "COORD" → roleName = "ADMIN" → ∃ p,
      postPing pings a roleName x y z l d dur ty fid now = (.created p, pings ++ [p])) ∧
    (ty = "LOCATION" → ∃ p,
      postPing pings a roleName x y z l d dur ty fid now =
        (.created p, (pings.filter fun q =>
          !(decide (q.author = a) && decide (q.type = "LOCATION"))) ++ [p])) := by
  refine ⟨?_, ?_, ?_, ?_⟩
  · intro h1 h2
    subst h1
    simp [postPing, h2]
  · intro h1 h2
    simp [postPing, h1, h2]
  · intro h1 h2
    subst h1
    subst h2
    exact ⟨{ id := fid, x := x, y := y, z := z, label := l, dimension := d,
             type := "COORD", author := a, expiresAt := now + parseDuration dur },
           by simp [postPing]⟩
  · intro h1
    subst h1
    exact ⟨{ id := fid, x := x, y := y, z := z, label := l, dimension := d,
             type := "LOCATION", author := a, expiresAt := now + parseDuration dur },
           by simp [postPing]⟩

/-- The gating theorem evaluated concretely: a USER posting a COORD ping
is rejected with Forbidden and an empty registry stays empty. -/
theorem postPing_type_gating_w :
    postPing [] "alice" "USER" (.num 1) (.num 2) (.num 3) (.str "l") (.str "d")
      none "COORD" "id1" 0 = (.coordForbidden, []) :=
  (postPing_type_gating [] "alice" "USER" (.num 1) (.num 2) (.num 3) (.str "l")
      (.str "d") none "COORD" "id1" 0).1 rfl (by decide)

/-! ### C5: coordinates of stored pings -/

/-- The ping stored by the counterexample post below: its `x` is the
string "oops", copied verbatim from the request body. -/
def badCoordPing : Ping :=
  { id := "id9", x := .str "oops", y := .num 2, z := .num 3, label := .str "l",
    dimension := .str "d", type := "LOCATION", author := "alice",
    expiresAt := 0 + parseDuration none }

/-- C5 counterexample: the post handler accepts a request whose `x` is a
string (no numeric validation exists), stores it, and the stored ping's
`x` is not numeric. -/
theorem postPing_accepts_nonnumeric :
    postPing [] "alice" "USER" (.str "oops") (.num 2) (.num 3) (.str "l") (.str "d")
      none "LOCATION" "id9" 0 = (.created badCoordPing, [badCoordPing]) ∧
    badCoordPing.x.isNum = false := by
  exact ⟨by decide, rfl⟩

/-- C5 amended: an accepted post stores the request's `x`, `y`, `z` values
verbatim — with no numeric validation — and only adds its own record, so
the stored coordinates are numeric exactly when the request's were. -/
theorem postPing_coords_verbatim (pings : List Ping) (a roleName : String)
    (x y z l d : JsValue) (dur : Option String) (ty fid : String) (now : Nat)
    (p : Ping) (ps : List Ping)
    (h : postPing pings a roleName x y z l d dur ty fid now = (.created p, ps)) :
    p.x = x ∧ p.y = y ∧ p.z = z ∧ ∀ q ∈ ps, q ∈ pings ∨ q = p := by
  simp only [postPing] at h
  by_cases hc : ty = "COORD"
  · rw [if_pos hc] at h
    by_cases hr : roleName = "ADMIN"
    · rw [if_neg (by simp [hr])] at h
      simp only [Prod.mk.injEq, PostResult.created.injEq] at h
      obtain ⟨hp, hps⟩ := h
      subst hp
      subst hps
      refine ⟨rfl, rfl, rfl, ?_⟩
      intro q hq
      rcases List.mem_append.mp hq with hq | hq
      · exact Or.inl hq
      · exact Or.inr (by simpa using hq)
    · rw [if_pos hr] at h
      simp at h
  · rw [if_neg hc] at h
    by_cases hl : ty = "LOCATION"
    · rw [if_pos hl] at h
      simp only [Prod.mk.injEq, PostResult.created.injEq] at h
      obtain ⟨hp, hps⟩ := h
      subst hp
      subst hps
      refine ⟨rfl, rfl, rfl, ?_⟩
      intro q hq
      rcases List.mem_append.mp hq with hq | hq
      · exact Or.inl (List.mem_filter.mp hq).1
      · exact Or.inr (by simpa using hq)
    · rw [if_neg hl] at h
      simp at h

/-- The verbatim-copy theorem evaluated at the counterexample input. -/
theorem postPing_coords_verbatim_w :
    badCoordPing.x = JsValue.str "oops" ∧ badCoordPing.y = JsValue.num 2 ∧
    badCoordPing.z = JsValue.num 3 ∧
    ∀ q ∈ [badCoordPing], q ∈ ([] : List Ping) ∨ q = badCoordPing :=
  postPing_coords_verbatim [] "alice" "USER" (.str "oops") (.num 2) (.num 3)
    (.str "l") (.str "d") none "LOCATION" "id9" 0 badCoordPing [badCoordPing]
    (by decide)


/-! ### C2: the one-LOCATION-ping-per-author invariant -/

/-- The record the post handler builds and appends for a request with the
given fields (`newPing` in the source). -/
def newPingOf (fid : String) (x y z l d : JsValue) (ty a : String)
    (dur : Option String) (now : Nat) : Ping :=
  { id := fid, x := x, y := y, z := z, label := l, dimension := d,
    type := ty, author := a, expiresAt := now + parseDuration dur }

/-- A successful COORD post (ADMIN role) appends `newPingOf`. -/
theorem postPing_coord_eq (pings : List Ping) (a : String)
    (x y z l d : JsValue) (dur : Option String) (fid : String) (now : Nat) :
    (postPing pings a "ADMIN" x y z l d dur "COORD" fid now).2 =
      pings ++ [newPingOf fid x y z l d "COORD" a dur now] := by
  simp [postPing, newPingOf]

/-- A LOCATION post first drops the author's LOCATION pings, then appends
`newPingOf`. -/
theorem postPing_location_eq (pings : List Ping) (a roleName : String)
    (x y z l d : JsValue) (dur : Option String) (fid : String) (now : Nat) :
    (postPing pings a roleName x y z l d dur "LOCATION" fid now).2 =
      (pings.filter fun p =>
        !(decide (p.author = a) && decide (p.type = "LOCATION"))) ++
      [newPingOf fid x y z l d "LOCATION" a dur now] := by
  simp [postPing, newPingOf]

/-- C2: the at-most-one-LOCATION-ping-per-author invariant is preserved by
every post, delete and sweep; after a LOCATION post the author has exactly
one LOCATION ping and every surviving LOCATION ping of that author is the
newly appended one (the earlier one was removed first); a COORD post by an
ADMIN removes nothing and increments the author's COORD count, so no
per-author limit applies to COORD pings. -/
theorem location_invariant_preserved (pings : List Ping) (a roleName : String)
    (x y z l d : JsValue) (dur : Option String) (ty fid id u r : String) (now : Nat)
    (hinv : ∀ b, locCount pings b ≤ 1) :
    (∀ b, locCount (postPing pings a roleName x y z l d dur ty fid now).2 b ≤ 1) ∧
    (∀ b, locCount (deletePing pings id u r).2 b ≤ 1) ∧
    (∀ b, locCount (sweep now pings) b ≤ 1) ∧
    (ty = "LOCATION" →
      locCount (postPing pings a roleName x y z l d dur ty fid now).2 a = 1 ∧
      ∀ q ∈ (postPing pings a roleName x y z l d dur ty fid now).2,
        q.author = a → q.type = "LOCATION" →
          q = newPingOf fid x y z l d ty a dur now) ∧
    (ty = "COORD" → roleName = "ADMIN" →
      coordCount (postPing pings a roleName x y z l d dur ty fid now).2 a =
        coordCount pings a + 1 ∧
      ∀ q ∈ pings, q ∈ (postPing pings a roleName x y z l d dur ty fid now).2) := by
  refine ⟨?_, ?_, ?_, ?_, ?_⟩
  · intro b
    by_cases hc : ty = "COORD"
    · subst hc
      by_cases hr : roleName = "ADMIN"
      · subst hr
        rw [postPing_coord_eq, locCount_append]
        have h1 : locCount [newPingOf fid x y z l d "COORD" a dur now] b = 0 := by
          simp [locCount, newPingOf]
        have := hinv b
        omega
      · have hunch : (postPing pings a roleName x y z l d dur "COORD" fid now).2 = pings := by
          simp [postPing, hr]
        rw [hunch]
        exact hinv b
    · by_cases hl : ty = "LOCATION"
      · subst hl
        rw [postPing_location_eq, locCount_append]
        by_cases hb : b = a
        · subst hb
          rw [locCount_filter_self]
          have h1 : locCount [newPingOf fid x y z l d "LOCATION" b dur now] b = 1 := by
            simp [locCount, newPingOf]
          omega
        · have h1 : locCount [newPingOf fid x y z l d "LOCATION" a dur now] b = 0 := by
            simp [locCount, newPingOf]
            intro hab
            exact absurd hab.symm hb
          have h2 : locCount (pings.filter fun p =>
              !(decide (p.author = a) && decide (p.type = "LOCATION"))) b ≤
              locCount pings b :=
            (List.filter_sublist pings).countP_le _
          have := hinv b
          omega
      · have hunch : (postPing pings a roleName x y z l d dur ty fid now).2 = pings := by
          simp [postPing, hc, hl]
        rw [hunch]
        exact hinv b
  · intro b
    exact le_trans ((deletePing_sublist pings id u r).countP_le _) (hinv b)
  · intro b
    exact le_trans ((List.filter_sublist pings).countP_le _) (hinv b)
  · intro hl
    subst hl
    constructor
    · rw [postPing_location_eq, locCount_append, locCount_filter_self]
      simp [locCount, newPingOf]
    · intro q hq hqa hqt
      rw [postPing_location_eq] at hq
      rcases List.mem_append.mp hq with hq | hq
      · have := (List.mem_filter.mp hq).2
        rw [hqa, hqt] at this
        simp at this
      · simpa using hq
  · intro hc hr
    subst hc
    subst hr
    constructor
    · rw [postPing_coord_eq]
      unfold coordCount
      rw [List.countP_append]
      simp [newPingOf]
    · intro q hq
      rw [postPing_coord_eq]
      exact List.mem_append.mpr (Or.inl hq)

/-- The invariant theorem evaluated concretely: starting from an empty
registry, a LOCATION post by "alice" leaves her with exactly one LOCATION
ping. -/
theorem location_invariant_preserved_w :
    locCount (postPing [] "alice" "USER" (.num 1) (.num 1) (.num 1) (.str "l")
      (.str "d") none "LOCATION" "idw" 0).2 "alice" = 1 :=
  ((location_invariant_preserved [] "alice" "USER" (.num 1) (.num 1) (.num 1)
      (.str "l") (.str "d") none "LOCATION" "idw" "idz" "u" "r" 0
      (fun b => by simp [locCount])).2.2.2.1 rfl).1

/-! ### C6: delete-by-id semantics -/

/-- C6: for a delete-by-id request, if no ping carries the id the result is
NotFound with the registry unchanged; if one does (the first match, as
`findIndex` selects), an ADMIN requester always removes it, a non-ADMIN
requester removes it exactly when they authored it, and otherwise the
result is Forbidden with the registry unchanged. -/
theorem deletePing_semantics (pings : List Ping) (id u r : String) :
    ((∀ p ∈ pings, p.id ≠ id) → deletePing pings id u r = (.notFoundPing, pings)) ∧
    (∀ q, pings.find? (fun p => decide (p.id = id)) = some q →
      ((r = "ADMIN" → deletePing pings id u r =
          (.deletedByAdmin, pings.eraseP (fun p => decide (p.id = id)))) ∧
       (r ≠ "ADMIN" → q.author = u → deletePing pings id u r =
          (.deletedByAuthor, pings.eraseP (fun p => decide (p.id = id)))) ∧
       (r ≠ "ADMIN" → q.author ≠ u → deletePing pings id u r =
          (.deleteForbidden, pings)))) := by
  induction pings with
  | nil =>
    refine ⟨fun _ => rfl, fun q hq => ?_⟩
    simp at hq
  | cons p rest ih =>
    constructor
    · intro hall
      have hpid : ¬ p.id = id := hall p (List.mem_cons_self p rest)
      have hrest := ih.1 (fun q hq => hall q (List.mem_cons_of_mem p hq))
      simp [deletePing, hpid, hrest]
    · intro q hq
      by_cases hpid : p.id = id
      · rw [List.find?_cons_of_pos _ (by simpa using hpid)] at hq
        injection hq with hq
        subst hq
        have he : (p :: rest).eraseP (fun p => decide (p.id = id)) = rest :=
          List.eraseP_cons_of_pos (by simpa using hpid)
        refine ⟨?_, ?_, ?_⟩
        · intro hr
          rw [he]
          simp [deletePing, hpid, hr]
        · intro hr ha
          rw [he]
          simp [deletePing, hpid, hr, ha]
        · intro hr ha
          simp [deletePing, hpid, hr, ha]
      · rw [List.find?_cons_of_neg _ (by simpa using hpid)] at hq
        have hrest := ih.2 q hq
        have he : (p :: rest).eraseP (fun p => decide (p.id = id)) =
            p :: rest.eraseP (fun p => decide (p.id = id)) :=
          List.eraseP_cons_of_neg (by simpa using hpid)
        refine ⟨?_, ?_, ?_⟩
        · intro hr
          rw [he]
          simp [deletePing, hpid, hrest.1 hr]
        · intro hr ha
          rw [he]
          simp [deletePing, hpid, hrest.2.1 hr ha]
        · intro hr ha
          simp [deletePing, hpid, hrest.2.2 hr ha]

/-- The delete theorem evaluated concretely: "bob" (role USER) deletes his
own ping `pingB` and the registry keeps only `pingA`. -/
theorem deletePing_semantics_w :
    deletePing [pingA, pingB] "idB" "bob" "USER" =
      (.deletedByAuthor, [pingA, pingB].eraseP (fun p => decide (p.id = "idB"))) :=
  ((deletePing_semantics [pingA, pingB] "idB" "bob" "USER").2 pingB
    (by decide)).2.1 (by decide) rfl


/-! ### C3: resolution of a blacklisted principal's token -/

/-- C3 amended: a blacklisted principal's token never resolves
successfully — when the principal's session is still live, resolution
fails with the Blacklisted error; but a blacklist add evicts the
principal's live session, after which any token that resolved to it finds
no session and fails with InvalidToken instead. -/
theorem blacklisted_token_never_resolves (st : ServerState) (t : String)
    (now : Nat) (ht : t ≠ "") :
    (∀ u s, getUserByToken st.users t = some (u, s) →
      st.blacklistCache.contains u = true →
      (authenticate st (some t) now).1 = .blacklistedErr) ∧
    (getUserByToken st.users t = none →
      (authenticate st (some t) now).1 = .invalidTokenErr) ∧
    (∀ u, st.blacklistCache.contains u = false →
      ∀ e ∈ (blacklistAdd st u).users, e.1 ≠ u) ∧
    (∀ u, (blacklistAdd st u).blacklistCache.contains u = true) := by
  refine ⟨?_, ?_, ?_, fun u => blacklistAdd_contains_self st u⟩
  · intro u s hfind hbl
    have hbl' : u ∈ st.blacklistCache := by simpa using hbl
    simp [authenticate, ht, hfind, hbl']
  · intro hfind
    simp [authenticate, ht, hfind]
  · intro u hu e he
    have hu2 : ¬ st.blacklistCache.contains u = true := by
      rw [hu]
      simp
    rw [blacklistAdd, if_neg hu2] at he
    have := (List.mem_filter.mp he).2
    simpa using this

/-- The session and state for the concrete C3 evaluations: "alice" holds
token "tokU" while already cached on the blacklist (a state reachable when
the blacklist loads from the database after her login). -/
def c3Session : Session := ⟨"USER", "tokU", 0⟩

def c3State : ServerState := ⟨[("alice", c3Session)], ["alice"], []⟩

/-- The amended theorem evaluated concretely: with the session still live,
"alice"'s token fails with the Blacklisted error. -/
theorem blacklisted_token_never_resolves_w :
    (authenticate c3State (some "tokU") 5).1 = .blacklistedErr :=
  (blacklisted_token_never_resolves c3State "tokU" 5 (by decide)).1 "alice"
    c3Session (by decide) (by decide)

/-- The secrets used by the concrete C3 trace. -/
def c3Config : Config := ⟨"userpw", "adminpw"⟩

/-- C3 counterexample: "alice" logs in and is issued token "tokU"; an
ADMIN then blacklists "alice", which evicts her session; resolving "tokU"
afterwards fails with InvalidToken — a different error kind than the
Blacklisted error the claim requires — although "alice" is on the
blacklist and "tokU" was issued to her. -/
theorem blacklisted_token_resolves_invalid :
    (login c3Config initialState "alice" "userpw" "tokU" 0).1 =
      .loginSuccess "tokU" "USER" ∧
    (blacklistAddHandler (login c3Config initialState "alice" "userpw" "tokU" 0).2
      "ADMIN" "alice").2.blacklistCache.contains "alice" = true ∧
    (authenticate
      (blacklistAddHandler (login c3Config initialState "alice" "userpw" "tokU" 0).2
        "ADMIN" "alice").2 (some "tokU") 2).1 = .invalidTokenErr ∧
    AuthResult.invalidTokenErr ≠ AuthResult.blacklistedErr :=
  ⟨by decide, by decide, by decide, by decide⟩

/-! ### C4: a second login invalidates the first token -/

/-- C4: logging in twice in succession replaces the identity's session,
issuing the fresh token `t2`; provided `t1` was fresh (no pre-existing
session held it) and `t2 ≠ t1`, the first token then resolves to the
InvalidToken error, so no operation authenticated with `t1` succeeds. -/
theorem second_login_invalidates_first (cfg : Config) (st0 : ServerState)
    (username password t1 t2 : String) (n1 n2 n3 : Nat)
    (hu : username ≠ "") (hp : password ≠ "")
    (hbl : st0.blacklistCache.contains username = false)
    (hrole : password = cfg.passwordAdmin ∨ password = cfg.passwordUser)
    (hfresh : ∀ e ∈ st0.users, e.2.token ≠ t1)
    (hne : t2 ≠ t1) (ht1 : t1 ≠ "") :
    (∃ role1, (login cfg st0 username password t1 n1).1 = .loginSuccess t1 role1) ∧
    (∃ role2, (login cfg (login cfg st0 username password t1 n1).2 username
        password t2 n2).1 = .loginSuccess t2 role2) ∧
    (authenticate (login cfg (login cfg st0 username password t1 n1).2 username
        password t2 n2).2 (some t1) n3).1 = .invalidTokenErr := by
  have hc1 : ¬(username = "" ∨ password = "") := by
    push_neg
    exact ⟨hu, hp⟩
  have hc2 : ¬ st0.blacklistCache.contains username = true := by
    rw [hbl]
    simp
  by_cases hA : password = cfg.passwordAdmin
  · have h1 : login cfg st0 username password t1 n1 =
        (.loginSuccess t1 "ADMIN",
         { st0 with users := mapSet st0.users username ⟨"ADMIN", t1, n1⟩ }) := by
      rw [login.eq_def, if_neg hc1, if_neg hc2, if_pos hA]
    have h2 : login cfg (login cfg st0 username password t1 n1).2 username
        password t2 n2 =
        (.loginSuccess t2 "ADMIN",
         { st0 with users := mapSet (mapSet st0.users username ⟨"ADMIN", t1, n1⟩) username ⟨"ADMIN", t2, n2⟩ }) := by
      rw [h1]
      rw [login.eq_def, if_neg hc1, if_neg hc2, if_pos hA]
    refine ⟨⟨"ADMIN", by rw [h1]⟩, ⟨"ADMIN", by rw [h2]⟩, ?_⟩
    rw [h2]
    have hnone := getUserByToken_after_two_sets st0.users username
      ⟨"ADMIN", t1, n1⟩ ⟨"ADMIN", t2, n2⟩ t1 hfresh hne
    simp [authenticate, ht1, hnone]
  · have hU : password = cfg.passwordUser := hrole.resolve_left hA
    have h1 : login cfg st0 username password t1 n1 =
        (.loginSuccess t1 "USER",
         { st0 with users := mapSet st0.users username ⟨"USER", t1, n1⟩ }) := by
      rw [login.eq_def, if_neg hc1, if_neg hc2, if_neg hA, if_pos hU]
    have h2 : login cfg (login cfg st0 username password t1 n1).2 username
        password t2 n2 =
        (.loginSuccess t2 "USER",
         { st0 with users := mapSet (mapSet st0.users username ⟨"USER", t1, n1⟩) username ⟨"USER", t2, n2⟩ }) := by
      rw [h1]
      rw [login.eq_def, if_neg hc1, if_neg hc2, if_neg hA, if_pos hU]
    refine ⟨⟨"USER", by rw [h1]⟩, ⟨"USER", by rw [h2]⟩, ?_⟩
    rw [h2]
    have hnone := getUserByToken_after_two_sets st0.users username
      ⟨"USER", t1, n1⟩ ⟨"USER", t2, n2⟩ t1 hfresh hne
    simp [authenticate, ht1, hnone]

/-- The single-session theorem evaluated concretely: after "alice" logs in
twice, the first token "tok1" resolves to InvalidToken. -/
theorem second_login_invalidates_first_w :
    (authenticate (login c3Config (login c3Config initialState "alice" "userpw"
        "tok1" 0).2 "alice" "userpw" "tok2" 1).2 (some "tok1") 2).1 =
      .invalidTokenErr :=
  (second_login_invalidates_first c3Config initialState "alice" "userpw"
    "tok1" "tok2" 0 1 2 (by decide) (by decide) rfl (Or.inr rfl)
    (fun e he => absurd he (by simp [initialState])) (by decide) (by decide)).2.2

/-! ### C9: blacklist add/remove idempotence -/

/-- C9: adding an already-cached identity changes nothing; after any add
the identity has exactly one cache entry (given it had at most one);
adding twice equals adding once; removing an absent identity is the
identity operation; and both handlers report success for an ADMIN
requester with a username present. -/
theorem blacklist_idempotence (st : ServerState) (u : String) :
    (st.blacklistCache.contains u = true → blacklistAdd st u = st) ∧
    (List.count u st.blacklistCache ≤ 1 →
      List.count u (blacklistAdd st u).blacklistCache = 1) ∧
    (blacklistAdd (blacklistAdd st u) u = blacklistAdd st u) ∧
    (st.blacklistCache.contains u = false → blacklistRemoveCore st u = st) ∧
    (u ≠ "" →
      (blacklistAddHandler st "ADMIN" u).1 =
        .blSuccess (blacklistAdd st u).blacklistCache ∧
      (blacklistRemoveHandler st "ADMIN" u).1 =
        .blSuccess (blacklistRemoveCore st u).blacklistCache) := by
  refine ⟨?_, ?_, ?_, ?_, ?_⟩
  · intro h
    rw [blacklistAdd, if_pos h]
  · intro hle
    by_cases h : st.blacklistCache.contains u = true
    · rw [blacklistAdd, if_pos h]
      have hmem : u ∈ st.blacklistCache := by simpa using h
      have hpos : 0 < List.count u st.blacklistCache :=
        List.count_pos_iff.mpr hmem
      omega
    · have h2 : ¬ st.blacklistCache.contains u = true := h
      rw [blacklistAdd, if_neg h2]
      have hmem : u ∉ st.blacklistCache := by simpa using h
      have hzero : List.count u st.blacklistCache = 0 :=
        List.count_eq_zero.mpr hmem
      simp [List.count_append, hzero]
  · conv_lhs => rw [blacklistAdd]
    rw [if_pos (blacklistAdd_contains_self st u)]
  · intro h
    have h2 : ¬ st.blacklistCache.contains u = true := by
      rw [h]
      simp
    rw [blacklistRemoveCore, if_neg h2]
  · intro hu
    constructor
    · rw [blacklistAddHandler, if_neg (by simp), if_neg hu]
    · rw [blacklistRemoveHandler, if_neg (by simp), if_neg hu]

/-- The idempotence theorem evaluated concretely: re-adding "bob" (already
cached once) keeps a single entry and changes nothing, and removing the
absent "carol" changes nothing. -/
theorem blacklist_idempotence_w :
    blacklistAdd ⟨[], ["bob"], []⟩ "bob" = ⟨[], ["bob"], []⟩ ∧
    List.count "bob" (blacklistAdd ⟨[], ["bob"], []⟩ "bob").blacklistCache = 1 ∧
    blacklistRemoveCore ⟨[], ["bob"], []⟩ "carol" = ⟨[], ["bob"], []⟩ :=
  ⟨(blacklist_idempotence ⟨[], ["bob"], []⟩ "bob").1 (by decide),
   (blacklist_idempotence ⟨[], ["bob"], []⟩ "bob").2.1 (by decide),
   (blacklist_idempotence ⟨[], ["bob"], []⟩ "carol").2.2.2.1 (by decide)⟩

/-! ### C10: the ADMIN secret is compared first -/

/-- C10: whenever the two configured secrets are the same string, a login
presenting that string is granted the ADMIN role for every non-blacklisted
identity, because the handler compares the password against the ADMIN
secret first. -/
theorem shared_secret_grants_admin (cfg : Config) (st : ServerState)
    (username t : String) (now : Nat)
    (heq : cfg.passwordAdmin = cfg.passwordUser)
    (hu : username ≠ "") (hp : cfg.passwordAdmin ≠ "")
    (hbl : st.blacklistCache.contains username = false) :
    (login cfg st username cfg.passwordAdmin t now).1 =
      .loginSuccess t "ADMIN" := by
  have hc1 : ¬(username = "" ∨ cfg.passwordAdmin = "") := by
    push_neg
    exact ⟨hu, hp⟩
  have hc2 : ¬ st.blacklistCache.contains username = true := by
    rw [hbl]
    simp
  rw [login.eq_def, if_neg hc1, if_neg hc2, if_pos rfl]

/-- A configuration in which both secrets are the same string "shared". -/
def sharedConfig : Config := ⟨"shared", "shared"⟩

/-- The shared-secret theorem evaluated concretely: logging in with the
shared secret yields the ADMIN role. -/
theorem shared_secret_grants_admin_w :
    (login sharedConfig initialState "alice" sharedConfig.passwordAdmin
      "tok1" 0).1 = .loginSuccess "tok1" "ADMIN" :=
  shared_secret_grants_admin sharedConfig initialState "alice" "tok1" 0 rfl
    (by decide) (by decide) rfl
